import Mathlib

/-!
Verification of the Productboard Zapier integration (JavaScript sources)
against its natural-language specification.

The JavaScript code is shallowly embedded: JS strings become `String`,
possibly-`undefined` values become `Option`, JS truthiness on strings is
made explicit (`none` and `""` are falsy), thrown platform errors become
`Except`, and regex-based rewriting is implemented as executable functions
on `List Char` that mirror the semantics of the concrete regexes used in
the source (`/<[^>]*>/g`, fixed entity literals, `/\s+/g`, `.trim()`).
-/

namespace Productboard

/-! ## JS-style string primitives -/

/-- JS truthiness for an optional string: `undefined`/`null` and `""` are falsy. -/
def jsTruthyStr : Option String → Bool
  | none => false
  | some s => s ≠ ""

/-- Embedding of the JS idiom `a || b` for optional strings: returns `a`
when it is truthy, otherwise the default `b`. -/
def jsOrStr : Option String → String → String
  | none, d => d
  | some s, d => if s = "" then d else s

/-- JS template-literal coercion: interpolating `undefined` yields the
text `"undefined"`. -/
def optToJsStr : Option String → String
  | none => "undefined"
  | some s => s

/-- The whitespace class of the JS regex `\s` and of `String.prototype.trim`,
restricted to the ASCII control characters that occur in this data
(space, tab, line feed, carriage return, vertical tab, form feed). -/
def isJsWS (c : Char) : Bool :=
  c = ' ' || c = '\t' || c = '\n' || c = '\r' || c = '\x0b' || c = '\x0c'

/-- Is the first character (if any) a non-whitespace character? -/
def headNotWS : List Char → Bool
  | [] => true
  | c :: _ => !isJsWS c

/-- Is the last character (if any) a non-whitespace character? -/
def lastNotWS : List Char → Bool
  | [] => true
  | [c] => !isJsWS c
  | _ :: c :: cs => lastNotWS (c :: cs)

/-- No two adjacent whitespace characters. -/
def noAdjWS : List Char → Bool
  | [] => true
  | c :: cs => (!isJsWS c || headNotWS cs) && noAdjWS cs

/-- Whitespace-normal form: no adjacent whitespace, and neither end is
whitespace. -/
def wsClean (l : List Char) : Bool := noAdjWS l && headNotWS l && lastNotWS l

/-- Embedding of `.replace(/\s+/g, ' ')`: every maximal run of whitespace
collapses to a single space. -/
def collapseWS : List Char → List Char
  | [] => []
  | [c] => if isJsWS c then [' '] else [c]
  | c :: d :: cs =>
    if isJsWS c && isJsWS d then collapseWS (d :: cs)
    else (if isJsWS c then ' ' else c) :: collapseWS (d :: cs)

/-- Remove the maximal whitespace suffix. -/
def dropTrailingWS : List Char → List Char
  | [] => []
  | c :: cs =>
    let r := dropTrailingWS cs
    if r = [] then (if isJsWS c then [] else [c]) else c :: r

/-- Embedding of `String.prototype.trim`: drop leading and trailing whitespace. -/
def trimWS (l : List Char) : List Char :=
  dropTrailingWS (l.dropWhile fun c => isJsWS c)

/-- `trim()` on strings. -/
def jsTrim (s : String) : String := (trimWS s.toList).asString

/-- Skip to just past the first `'>'`, if one exists. -/
def findGt : List Char → Option (List Char)
  | [] => none
  | c :: cs => if c = '>' then some cs else findGt cs

/-- Fueled embedding of `.replace(/<[^>]*>/g, '')`: at a `'<'` that has a
later `'>'`, the leftmost match spans up to the first `'>'` and is removed;
a `'<'` with no later `'>'` cannot start a match and is kept.  The fuel
only needs to dominate the list length. -/
def removeTagsF : Nat → List Char → List Char
  | _, [] => []
  | 0, l => l
  | fuel + 1, c :: cs =>
    if c = '<' then
      match findGt cs with
      | some rest => removeTagsF fuel rest
      | none => c :: removeTagsF fuel cs
    else c :: removeTagsF fuel cs

def removeTags (l : List Char) : List Char := removeTagsF l.length l

/-- Fueled embedding of `.replace(pat, repl)` with a global literal pattern:
leftmost, non-overlapping occurrences are each replaced once. -/
def replaceSubF (pat repl : List Char) : Nat → List Char → List Char
  | _, [] => []
  | 0, l => l
  | fuel + 1, c :: cs =>
    if pat ≠ [] ∧ pat.isPrefixOf (c :: cs) then
      repl ++ replaceSubF pat repl fuel (List.drop pat.length (c :: cs))
    else c :: replaceSubF pat repl fuel cs

def replaceSub (pat repl l : List Char) : List Char := replaceSubF pat repl l.length l

/-- The six whitelisted entity replacements of `stripHtml`, in source order. -/
def decodeEntities (l : List Char) : List Char :=
  replaceSub "&#39;".toList "'".toList
    (replaceSub "&quot;".toList "\"".toList
      (replaceSub "&gt;".toList ">".toList
        (replaceSub "&lt;".toList "<".toList
          (replaceSub "&amp;".toList "&".toList
            (replaceSub "&nbsp;".toList " ".toList l)))))

/-- The unguarded pipeline of `stripHtml` from `src/lib/utils.js`:
tag removal, then entity decoding, then whitespace collapsing, then trim. -/
def stripHtmlCore (s : String) : String :=
  (trimWS (collapseWS (decodeEntities (removeTags s.toList)))).asString

/-- `stripHtml` from `src/lib/utils.js`, including the `if (!html) return ''`
guard on its possibly-`undefined` argument. -/
def stripHtml : Option String → String
  | none => ""
  | some s => if s = "" then "" else stripHtmlCore s

/-- The six whitelisted entity sequences, as character lists. -/
def entityTokens : List (List Char) :=
  ["&nbsp;".toList, "&amp;".toList, "&lt;".toList, "&gt;".toList,
   "&quot;".toList, "&#39;".toList]

/-- A character list that is a concatenation of tokens drawn from `S`. -/
inductive Concat (S : List (List Char)) : List Char → Prop
  | nil : Concat S []
  | tok (t : List Char) (ht : t ∈ S) (rest : List Char) (h : Concat S rest) :
      Concat S (t ++ rest)

/-- An input "containing only whitelisted named entities and tag markup":
a concatenation of whitelisted entity sequences and complete tags
(`<` … `>` with no `>` inside, matching the tag regex `<[^>]*>`). -/
inductive EntityTagInput : List Char → Prop
  | nil : EntityTagInput []
  | ent (t : List Char) (ht : t ∈ entityTokens) (rest : List Char)
      (h : EntityTagInput rest) : EntityTagInput (t ++ rest)
  | tag (body : List Char) (hb : '>' ∉ body) (rest : List Char)
      (h : EntityTagInput rest) : EntityTagInput ('<' :: (body ++ '>' :: rest))

/-- Token sets describing the string between the successive entity-decoding
passes of `stripHtml`: each pass replaces its entity token by the decoded
character. -/
def decodeTokens1 : List (List Char) :=
  [" ".toList, "&amp;".toList, "&lt;".toList, "&gt;".toList,
   "&quot;".toList, "&#39;".toList]

def decodeTokens2 : List (List Char) :=
  [" ".toList, "&".toList, "&lt;".toList, "&gt;".toList,
   "&quot;".toList, "&#39;".toList]

def decodeTokens3 : List (List Char) :=
  [" ".toList, "&".toList, "<".toList, "&gt;".toList,
   "&quot;".toList, "&#39;".toList]

def decodeTokens4 : List (List Char) :=
  [" ".toList, "&".toList, "<".toList, ">".toList,
   "&quot;".toList, "&#39;".toList]

def decodeTokens5 : List (List Char) :=
  [" ".toList, "&".toList, "<".toList, ">".toList,
   "\"".toList, "&#39;".toList]

def decodeTokens6 : List (List Char) :=
  [" ".toList, "&".toList, "<".toList, ">".toList,
   "\"".toList, "'".toList]

/-! ## Raw API entity shape (upstream-owned JSON, optional everywhere) -/

structure RawMember where
  email : Option String
  id : Option String
deriving DecidableEq

structure RawStatus where
  name : Option String
  id : Option String
deriving DecidableEq

structure RawTimeframe where
  startDate : Option String
  endDate : Option String
deriving DecidableEq

structure RawHealth where
  id : Option String
  status : Option String
  previousStatus : Option String
  mode : Option String
  comment : Option String
  lastUpdatedAt : Option String
  createdBy : Option RawMember
deriving DecidableEq

structure RawFields where
  name : Option String
  description : Option String
  status : Option RawStatus
  archived : Option Bool
  owner : Option RawMember
  timeframe : Option RawTimeframe
  health : Option RawHealth
deriving DecidableEq

structure RawEntity where
  id : Option String
  type : Option String
  fields : Option RawFields
  createdAt : Option String
  updatedAt : Option String
deriving DecidableEq

/-- The `{}` default in `const fields = entity.fields || {}`. -/
def emptyRawFields : RawFields := ⟨none, none, none, none, none, none, none⟩

/-! ## `src/lib/utils.js`: URL builder and entity formatter -/

/-- `getEntityUrl` from `src/lib/utils.js`. -/
def getEntityUrl (entityType entityId : String) : String :=
  "https://zapier.productboard.com/feature-board/165206/detail/" ++ entityType ++ "/" ++ entityId

structure FormattedHealth where
  id : Option String
  status : Option String
  previousStatus : String
  mode : Option String
  comment : String
  commentPlainText : String
  lastUpdatedAt : Option String
  updatedByEmail : String
  updatedById : String
deriving DecidableEq

structure FormattedEntity where
  id : Option String
  type : Option String
  name : String
  description : String
  descriptionPlainText : String
  url : String
  status : String
  statusId : String
  archived : Bool
  ownerEmail : String
  ownerId : String
  startDate : String
  endDate : String
  createdAt : Option String
  updatedAt : Option String
  health : Option FormattedHealth
deriving DecidableEq

/-- `formatEntity` from `src/lib/utils.js`.  `x || ''` becomes `jsOrStr x ""`,
optional chaining becomes `Option.bind`, and the JS template interpolation of a
possibly-`undefined` id/type into the URL becomes `optToJsStr`. -/
def formatEntity (entity : RawEntity) : FormattedEntity :=
  let fields := entity.fields.getD emptyRawFields
  let health := fields.health
  { id := entity.id
    type := entity.type
    name := jsOrStr fields.name ""
    description := jsOrStr fields.description ""
    descriptionPlainText := stripHtml fields.description
    url := getEntityUrl (optToJsStr entity.type) (optToJsStr entity.id)
    status := jsOrStr (fields.status.bind RawStatus.name) ""
    statusId := jsOrStr (fields.status.bind RawStatus.id) ""
    archived := fields.archived.getD false
    ownerEmail := jsOrStr (fields.owner.bind RawMember.email) ""
    ownerId := jsOrStr (fields.owner.bind RawMember.id) ""
    startDate := jsOrStr (fields.timeframe.bind RawTimeframe.startDate) ""
    endDate := jsOrStr (fields.timeframe.bind RawTimeframe.endDate) ""
    createdAt := entity.createdAt
    updatedAt := entity.updatedAt
    health := health.map fun h =>
      { id := h.id
        status := h.status
        previousStatus := jsOrStr h.previousStatus ""
        mode := h.mode
        comment := jsOrStr h.comment ""
        commentPlainText := stripHtml h.comment
        lastUpdatedAt := h.lastUpdatedAt
        updatedByEmail := jsOrStr (h.createdBy.bind RawMember.email) ""
        updatedById := jsOrStr (h.createdBy.bind RawMember.id) "" } }

/-! ## `src/index.js`: error-handling middleware -/

/-- One element of a hypothetical `body.errors[]` array.  The source reads
no such field; it is carried in the model so that statements about bodies
containing it can be made. -/
structure ErrJson where
  message : Option String
  detail : Option String
deriving DecidableEq

/-- The error-body shapes the spec discusses.  `handleErrors` in
`src/index.js` only ever reads `.message` and `.error`. -/
structure ErrorBody where
  message : Option String
  error : Option String
  errors : Option (List ErrJson)
  detail : Option String
  title : Option String
deriving DecidableEq

/-- The `{}` default in `const errorBody = response.data || {}`. -/
def emptyErrorBody : ErrorBody := ⟨none, none, none, none, none⟩

structure HttpResponse where
  status : Nat
  data : Option ErrorBody
deriving DecidableEq

/-- A thrown `z.errors.Error(message, code, status)`. -/
structure ZErr where
  message : String
  code : String
  status : Nat
deriving DecidableEq

/-- `handleErrors` from `src/index.js`: the afterResponse middleware.
Throwing is modelled as `Except.error`. -/
def handleErrors (response : HttpResponse) : Except ZErr HttpResponse :=
  if 400 ≤ response.status then
    let errorBody := response.data.getD emptyErrorBody
    if response.status = 401 then
      .error ⟨"Authentication failed. Please check your Productboard API token.",
              "AuthenticationError", response.status⟩
    else if response.status = 403 then
      .error ⟨"Access denied. Your API token may not have permission for this action.",
              "ForbiddenError", response.status⟩
    else if response.status = 404 then
      .error ⟨"Resource not found. The entity ID may be incorrect.",
              "NotFoundError", response.status⟩
    else if response.status = 429 then
      .error ⟨"Rate limit exceeded. Productboard allows 50 requests/second. Please retry.",
              "RateLimitError", response.status⟩
    else
      let message := jsOrStr errorBody.message (jsOrStr errorBody.error "Unknown API error")
      .error ⟨"Productboard API error: " ++ message, "ApiError", response.status⟩
  else
    .ok response

/-! ## `src/searches/listEntities.js`: the filter builder -/

/-- A Zapier multi-value input arrives either as a pre-split array or as a
single comma-separated string (`Array.isArray(x) ? x : x.split(',').map(trim)`). -/
inductive StrOrArr
  | str (s : String)
  | arr (l : List String)
deriving DecidableEq

/-- JS truthiness of such an input: `undefined` and `""` are falsy,
every array (including `[]`) is truthy. -/
def jsTruthySA : Option StrOrArr → Bool
  | none => false
  | some (.str s) => s ≠ ""
  | some (.arr _) => true

/-- Split on the literal comma, as `String.prototype.split(',')` does
(an empty string yields one empty piece). -/
def splitCommaAux : List Char → List Char → List (List Char)
  | [], acc => [acc.reverse]
  | c :: cs, acc =>
    if c = ',' then acc.reverse :: splitCommaAux cs [] else splitCommaAux cs (c :: acc)

def jsSplitComma (s : String) : List String :=
  (splitCommaAux s.toList []).map List.asString

/-- `Array.isArray(x) ? x : x.split(',').map(e => e.trim())`: only the
string branch trims. -/
def resolveMulti : StrOrArr → List String
  | .arr l => l
  | .str s => (jsSplitComma s).map jsTrim

structure OwnerRef where
  email : String
deriving DecidableEq

structure StatusRef where
  name : String
deriving DecidableEq

structure IdRef where
  id : String
deriving DecidableEq

structure HealthFilter where
  status : String
deriving DecidableEq

structure TimeframeFilter where
  startDate : Option String
  endDate : Option String
deriving DecidableEq

/-- The POST search body built by `perform` (`searchData`); `none` on a
field means the key is absent from the JS object. -/
structure SearchData where
  fields : String
  type : Option String
  owners : Option (List OwnerRef)
  statuses : Option (List StatusRef)
  health : Option HealthFilter
  archived : Option Bool
  parent : Option IdRef
  component : Option IdRef
  product : Option IdRef
  initiative : Option IdRef
  objective : Option IdRef
  release : Option IdRef
  timeframe : Option TimeframeFilter
deriving DecidableEq

/-- The `bundle.inputData` fields read by `listEntities.perform`. -/
structure ListInputs where
  entityType : Option String
  ownerEmails : Option StrOrArr
  statusNames : Option StrOrArr
  healthStatus : Option String
  archived : Option String
  parentId : Option String
  componentId : Option String
  productId : Option String
  initiativeId : Option String
  objectiveId : Option String
  releaseId : Option String
  startDate : Option String
  endDate : Option String
deriving DecidableEq

/-- All inputs absent. -/
def emptyListInputs : ListInputs :=
  ⟨none, none, none, none, none, none, none, none, none, none, none, none, none⟩

/-- `if (x) searchData.k = { id: x }` for the single-ID filters. -/
def idField (o : Option String) : Option IdRef :=
  match o with
  | some s => if s = "" then none else some ⟨s⟩
  | none => none

/-- `if (x) { const l = Array.isArray(x) ? x : x.split(',').map(trim); ... }`. -/
def multiField (o : Option StrOrArr) : Option (List String) :=
  match o with
  | none => none
  | some (.str s) => if s = "" then none else some (resolveMulti (.str s))
  | some (.arr l) => some (resolveMulti (.arr l))

/-- The filter-building prefix of `perform` in `src/searches/listEntities.js`
(lines 44-110), as a pure function of the inputs. -/
def buildSearchData (i : ListInputs) : SearchData :=
  { fields := "default"
    type := if jsTruthyStr i.entityType then i.entityType else none
    owners := (multiField i.ownerEmails).map (List.map fun email => OwnerRef.mk email)
    statuses := (multiField i.statusNames).map (List.map fun name => StatusRef.mk name)
    health := match i.healthStatus with
      | some s => if s = "" then none else some ⟨s⟩
      | none => none
    archived := match i.archived with
      | some s => if s ≠ "" ∧ s ≠ "all" then some (s = "true") else none
      | none => none
    parent := idField i.parentId
    component := idField i.componentId
    product := idField i.productId
    initiative := idField i.initiativeId
    objective := idField i.objectiveId
    release := idField i.releaseId
    timeframe :=
      if jsTruthyStr i.startDate || jsTruthyStr i.endDate then
        some ⟨if jsTruthyStr i.startDate then i.startDate else none,
              if jsTruthyStr i.endDate then i.endDate else none⟩
      else none }

/-! ## `src/searches/getEntity` (second document of `listEntities.js`) -/

/-- A JS response body read both as a wrapper (optional `.data` key) and,
when that key is absent, directly as the entity
(`response.data.data || response.data`). -/
structure EntityBody where
  data : Option RawEntity
  whole : RawEntity
deriving DecidableEq

def extractEntity (b : EntityBody) : RawEntity := b.data.getD b.whole

/-- `perform` of the `getEntity` search: the HTTP call either produced a
body or threw a `ZErr` (via `handleErrors`); a 404 becomes `[]`. -/
def getEntityPerform (entityId : Option String) (outcome : Except ZErr EntityBody) :
    Except ZErr (List FormattedEntity) :=
  if jsTruthyStr entityId = false then .ok []
  else
    match outcome with
    | .ok body => .ok [formatEntity (extractEntity body)]
    | .error e => if e.status = 404 then .ok [] else .error e

/-! ## `src/searches/getEntityRelationships.js` -/

structure RelEntityFields where
  name : Option String
deriving DecidableEq

structure RelEntity where
  id : Option String
  type : Option String
  fields : Option RelEntityFields
deriving DecidableEq

structure RawRel where
  id : Option String
  type : Option String
  relationshipType : Option String
  direction : Option String
  relatedEntity : Option RelEntity
  targetId : Option String
  targetType : Option String
  targetName : Option String
  createdAt : Option String
deriving DecidableEq

structure FormattedRel where
  id : String
  sourceEntityId : String
  relationshipType : String
  direction : String
  relatedEntityId : String
  relatedEntityType : String
  relatedEntityName : String
  createdAt : String
deriving DecidableEq

/-- The per-relationship mapper inside `perform`. -/
def formatRel (entityId : String) (rel : RawRel) : FormattedRel :=
  { id := jsOrStr rel.id (entityId ++ "_" ++ optToJsStr (rel.relatedEntity.bind RelEntity.id))
    sourceEntityId := entityId
    relationshipType := jsOrStr rel.type (jsOrStr rel.relationshipType "")
    direction := jsOrStr rel.direction ""
    relatedEntityId := jsOrStr (rel.relatedEntity.bind RelEntity.id) (jsOrStr rel.targetId "")
    relatedEntityType := jsOrStr (rel.relatedEntity.bind RelEntity.type) (jsOrStr rel.targetType "")
    relatedEntityName :=
      jsOrStr ((rel.relatedEntity.bind RelEntity.fields).bind RelEntityFields.name)
        (jsOrStr rel.targetName "")
    createdAt := jsOrStr rel.createdAt "" }

/-- `response.data.data || response.data` is either an array or one object;
`Array.isArray(data) ? data : [data]`. -/
inductive RelData
  | one (r : RawRel)
  | many (l : List RawRel)
deriving DecidableEq

structure RelBody where
  data : Option RelData
  whole : RelData
deriving DecidableEq

def relToList : RelData → List RawRel
  | .many l => l
  | .one r => [r]

/-- `perform` of the `getEntityRelationships` search. -/
def getEntityRelationshipsPerform (entityId : Option String)
    (outcome : Except ZErr RelBody) : Except ZErr (List FormattedRel) :=
  if jsTruthyStr entityId = false then .ok []
  else
    match outcome with
    | .ok body =>
        .ok ((relToList (body.data.getD body.whole)).map (formatRel (optToJsStr entityId)))
    | .error e => if e.status = 404 then .ok [] else .error e

/-! ## `createHealthUpdate` (second document of `index.js`) -/

structure MemberAssign where
  id : String
deriving DecidableEq

/-- The `healthUpdate` payload placed under `{data:{fields:{health}}}`. -/
structure HealthUpdatePayload where
  status : String
  mode : String
  comment : Option String
  createdBy : Option MemberAssign
deriving DecidableEq

/-- `comment.startsWith('<')`. -/
def jsStartsWithLt (s : String) : Bool :=
  match s.toList with
  | c :: _ => c = '<'
  | [] => false

structure CreateHealthInputs where
  entityId : String
  status : String
  comment : Option String
  mode : Option String
  createdById : Option String
deriving DecidableEq

/-- The payload-building prefix of `createHealthUpdate.perform`. -/
def buildHealthUpdate (i : CreateHealthInputs) : HealthUpdatePayload :=
  { status := i.status
    mode := jsOrStr i.mode "manual"
    comment := match i.comment with
      | some c =>
          if c = "" then none
          else some (if jsStartsWithLt c then c else "<p>" ++ c ++ "</p>")
      | none => none
    createdBy := match i.createdById with
      | some s => if s = "" then none else some ⟨s⟩
      | none => none }

inductive Method
  | GET
  | PATCH
  | POST
deriving DecidableEq

/-- One `z.request` issued by the health-update handler. -/
structure EntityRequest where
  url : String
  method : Method
  body : Option HealthUpdatePayload
deriving DecidableEq

/-- `createHealthUpdate.perform`: issues the PATCH then the GET (returned
as the request trace, in order), and formats the GET response.  The PATCH
response body is a parameter so that the result's independence from it can
be stated. -/
def createHealthUpdatePerform (i : CreateHealthInputs)
    (_patchResp getResp : EntityBody) : List EntityRequest × FormattedEntity :=
  ([{ url := "https://api.productboard.com/v2/entities/" ++ i.entityId
      method := .PATCH
      body := some (buildHealthUpdate i) },
    { url := "https://api.productboard.com/v2/entities/" ++ i.entityId
      method := .GET
      body := none }],
   formatEntity (extractEntity getResp))

/-! ## `src/triggers/healthUpdates.js` -/

/-- `entity.fields?.health?.id`. -/
def rawHealthId (e : RawEntity) : Option String :=
  (e.fields.bind RawFields.health).bind RawHealth.id

/-- The filter `entity.fields?.health?.id` under JS truthiness. -/
def hasHealthId (e : RawEntity) : Bool :=
  match rawHealthId e with
  | some s => s ≠ ""
  | none => false

/-- The trigger's output record: the formatted entity whose `id` has been
overwritten with the health id, plus the added `entityId` key
(`{...formatted, id: formatted.health.id, entityId: entity.id}`). -/
structure TriggerRecord where
  base : FormattedEntity
  entityId : Option String
deriving DecidableEq

/-- The mapper inside `perform`.  The `none` branch of the match is
unreachable for filtered entities (the JS reads `formatted.health.id`
directly, which the filter guarantees is defined). -/
def toTriggerRecord (e : RawEntity) : TriggerRecord :=
  let f := formatEntity e
  { base := { f with id := match f.health with
      | some h => h.id
      | none => none }
    entityId := e.id }

/-- Sort key: `new Date(x.health.lastUpdatedAt)`, with the `Date` parse
abstracted as an arbitrary total valuation of the optional string. -/
def healthDateKey (dateVal : Option String → Int) (r : TriggerRecord) : Int :=
  dateVal (match r.base.health with
    | some h => h.lastUpdatedAt
    | none => none)

/-- Stable insertion for a descending sort by an integer key. -/
def insertDescBy {α : Type} (key : α → Int) (x : α) : List α → List α
  | [] => [x]
  | y :: ys => if key y ≤ key x then x :: y :: ys else y :: insertDescBy key x ys

/-- Embedding of `.sort((a, b) => dateB - dateA)`: a stable descending
sort by the key (JS `Array.prototype.sort` is stable, and the numeric
comparator induces this total preorder). -/
def sortDescBy {α : Type} (key : α → Int) : List α → List α
  | [] => []
  | x :: xs => insertDescBy key x (sortDescBy key xs)

/-- Does the head (if any) have key at most `b`? -/
def headKeyLe {α : Type} (key : α → Int) (b : Int) : List α → Bool
  | [] => true
  | y :: _ => decide (key y ≤ b)

/-- Adjacent-pairwise check that a list is in descending key order. -/
def sortedDescBy {α : Type} (key : α → Int) : List α → Bool
  | [] => true
  | x :: xs => headKeyLe key (key x) xs && sortedDescBy key xs

/-- `healthUpdates.perform` on the fetched entity list: filter to entities
with a (truthy) health id, map to trigger records, sort newest-first. -/
def healthUpdatesPerform (dateVal : Option String → Int)
    (entities : List RawEntity) : List TriggerRecord :=
  sortDescBy (healthDateKey dateVal) ((entities.filter hasHealthId).map toTriggerRecord)

/-- A concrete raw entity mirroring the samples in the source, used to
exercise the theorems at a specific input. -/
def sampleHealthEntity : RawEntity :=
  { id := some "ent_feature456"
    type := some "feature"
    fields := some
      { name := some "User Authentication"
        description := some "<p>Implement secure user authentication flow</p>"
        status := some ⟨some "In Progress", some "status_123"⟩
        archived := some false
        owner := some ⟨some "pm@example.com", some "member_456"⟩
        timeframe := some ⟨some "2025-01-01", some "2025-03-31"⟩
        health := some
          { id := some "health_abc123"
            status := some "onTrack"
            previousStatus := some "atRisk"
            mode := some "manual"
            comment := some "<p>Development is back on schedule.</p>"
            lastUpdatedAt := some "2025-12-13T12:00:00Z"
            createdBy := some ⟨some "pm@example.com", some "member_789"⟩ } }
    createdAt := some "2025-01-01T00:00:00Z"
    updatedAt := some "2025-12-13T12:00:00Z" }

/-! ## Whitespace-normalization lemmas -/

theorem toList_asString (l : List Char) : (List.asString l).toList = l := rfl

theorem headNotWS_collapseWS (d : Char) (cs : List Char) (h : isJsWS d = false) :
    headNotWS (collapseWS (d :: cs)) = true := by
  cases cs with
  | nil => simp [collapseWS, headNotWS, h]
  | cons e cs => simp [collapseWS, headNotWS, h]

theorem noAdjWS_collapseWS : (l : List Char) → noAdjWS (collapseWS l) = true
  | [] => rfl
  | [c] => by
      by_cases h : isJsWS c
      · simp [collapseWS, h, noAdjWS, headNotWS]
      · simp [collapseWS, h, noAdjWS, headNotWS]
  | c :: d :: cs => by
      have ih := noAdjWS_collapseWS (d :: cs)
      by_cases h1 : isJsWS c
      · by_cases h2 : isJsWS d
        · simpa [collapseWS, h1, h2] using ih
        · have hh := headNotWS_collapseWS d cs (by simp [h2])
          simp [collapseWS, h1, h2, noAdjWS, ih, hh]
      · simp [collapseWS, h1, noAdjWS, ih]

theorem noAdjWS_tail {c : Char} {cs : List Char} (h : noAdjWS (c :: cs) = true) :
    noAdjWS cs = true := by
  simp [noAdjWS, Bool.and_eq_true] at h
  exact h.2

theorem noAdjWS_dropWhile (f : Char → Bool) :
    (l : List Char) → noAdjWS l = true → noAdjWS (l.dropWhile f) = true
  | [], h => h
  | c :: cs, h => by
      rw [List.dropWhile_cons]
      by_cases hc : f c
      · simp only [hc, if_true]
        exact noAdjWS_dropWhile f cs (noAdjWS_tail h)
      · simp only [hc, if_false]
        exact h

theorem headNotWS_dropWhileWS :
    (l : List Char) → headNotWS (l.dropWhile fun c => isJsWS c) = true
  | [] => rfl
  | c :: cs => by
      rw [List.dropWhile_cons]
      by_cases hc : isJsWS c
      · simp only [hc, if_true]
        exact headNotWS_dropWhileWS cs
      · simp [hc, headNotWS]

theorem dropTrailingWS_head (c : Char) (cs : List Char) :
    dropTrailingWS (c :: cs) = [] ∨ ∃ t, dropTrailingWS (c :: cs) = c :: t := by
  by_cases h : dropTrailingWS cs = []
  · by_cases hc : isJsWS c
    · left; simp [dropTrailingWS, h, hc]
    · right; exact ⟨[], by simp [dropTrailingWS, h, hc]⟩
  · right; exact ⟨dropTrailingWS cs, by simp [dropTrailingWS, h]⟩

theorem lastNotWS_dropTrailingWS : (l : List Char) → lastNotWS (dropTrailingWS l) = true
  | [] => rfl
  | c :: cs => by
      have ih := lastNotWS_dropTrailingWS cs
      by_cases h : dropTrailingWS cs = []
      · by_cases hc : isJsWS c
        · simp [dropTrailingWS, h, hc, lastNotWS]
        · simp [dropTrailingWS, h, hc, lastNotWS]
      · rcases hr : dropTrailingWS cs with _ | ⟨x, r⟩
        · exact absurd hr h
        · rw [hr] at ih
          simp [dropTrailingWS, hr, lastNotWS, ih]

theorem noAdjWS_dropTrailingWS :
    (l : List Char) → noAdjWS l = true → noAdjWS (dropTrailingWS l) = true
  | [], h => h
  | c :: cs, h => by
      have h12 : ((!isJsWS c || headNotWS cs) && noAdjWS cs) = true := by
        simpa [noAdjWS] using h
      rw [Bool.and_eq_true] at h12
      have ih := noAdjWS_dropTrailingWS cs h12.2
      by_cases he : dropTrailingWS cs = []
      · by_cases hc : isJsWS c
        · simp [dropTrailingWS, he, hc, noAdjWS]
        · simp [dropTrailingWS, he, hc, noAdjWS, headNotWS]
      · rcases hr : dropTrailingWS cs with _ | ⟨x, r⟩
        · exact absurd hr he
        · rw [hr] at ih
          have hhead : headNotWS (x :: r) = headNotWS cs := by
            cases cs with
            | nil => simp [dropTrailingWS] at hr
            | cons d cs' =>
                rcases dropTrailingWS_head d cs' with h0 | ⟨t, ht⟩
                · rw [h0] at hr; cases hr
                · rw [ht] at hr
                  cases hr
                  simp [headNotWS]
          have hd : dropTrailingWS (c :: cs) = c :: x :: r := by
            simp [dropTrailingWS, hr]
          rw [hd]
          show ((!isJsWS c || headNotWS (x :: r)) && noAdjWS (x :: r)) = true
          rw [hhead, ih, h12.1]
          rfl

theorem headNotWS_dropTrailingWS (l : List Char) (h : headNotWS l = true) :
    headNotWS (dropTrailingWS l) = true := by
  cases l with
  | nil => exact h
  | cons c cs =>
      rcases dropTrailingWS_head c cs with h0 | ⟨t, ht⟩
      · simp [h0, headNotWS]
      · rw [ht]; simpa [headNotWS] using h

theorem wsClean_trim_collapse (l : List Char) : wsClean (trimWS (collapseWS l)) = true := by
  have h1 : noAdjWS (trimWS (collapseWS l)) = true :=
    noAdjWS_dropTrailingWS _ (noAdjWS_dropWhile _ _ (noAdjWS_collapseWS l))
  have h2 : headNotWS (trimWS (collapseWS l)) = true :=
    headNotWS_dropTrailingWS _ (headNotWS_dropWhileWS _)
  have h3 : lastNotWS (trimWS (collapseWS l)) = true :=
    lastNotWS_dropTrailingWS _
  simp [wsClean, h1, h2, h3]

/-! ## Token-concatenation lemmas for the entity-decoding passes -/

theorem isPrefixOf_append_self : (p rest : List Char) → p.isPrefixOf (p ++ rest) = true
  | [], rest => by cases rest <;> rfl
  | c :: p, rest => by
      simp [List.isPrefixOf, isPrefixOf_append_self p rest]

theorem isPrefixOf_append_eq_false (p t : List Char)
    (h1 : t.isPrefixOf p = false) (h2 : p.isPrefixOf t = false) :
    ∀ rest, p.isPrefixOf (t ++ rest) = false := by
  induction t generalizing p with
  | nil => simp [List.isPrefixOf] at h1
  | cons a t ih =>
      cases p with
      | nil => simp [List.isPrefixOf] at h2
      | cons b p =>
          intro rest
          by_cases hab : b = a
          · subst hab
            simp only [List.isPrefixOf, beq_self_eq_true, Bool.true_and] at h1 h2 ⊢
            exact ih p h1 h2 rest
          · simp [List.isPrefixOf, beq_eq_false_iff_ne, hab]

theorem isPrefixOf_append_of_take (p t : List Char) (h1 : t.isPrefixOf p = true) :
    ∀ rest, p.isPrefixOf (t ++ rest) = (p.drop t.length).isPrefixOf rest := by
  induction t generalizing p with
  | nil => intro rest; rfl
  | cons a t ih =>
      cases p with
      | nil => intro rest; simp [List.isPrefixOf]
      | cons b p =>
          intro rest
          simp only [List.isPrefixOf, Bool.and_eq_true, beq_iff_eq] at h1
          obtain ⟨hab, h1⟩ := h1
          subst hab
          simp only [List.cons_append, List.isPrefixOf, beq_self_eq_true, Bool.true_and,
            List.length_cons, List.drop_succ_cons]
          exact ih p h1 rest

theorem findGt_append (body rest : List Char) (hb : '>' ∉ body) :
    findGt (body ++ '>' :: rest) = some rest := by
  induction body with
  | nil => simp [findGt]
  | cons c b ih =>
      simp only [List.mem_cons, not_or] at hb
      have hc : ¬ c = '>' := fun h => hb.1 h.symm
      simp [findGt, hc, ih hb.2]

theorem removeTagsF_skip (t : List Char) (hlt : '<' ∉ t) :
    ∀ fuel rest, removeTagsF (t.length + fuel) (t ++ rest) = t ++ removeTagsF fuel rest := by
  induction t with
  | nil => intro fuel rest; simp
  | cons c t ih =>
      intro fuel rest
      simp only [List.mem_cons, not_or] at hlt
      have hc : ¬ c = '<' := fun h => hlt.1 h.symm
      have harith : (c :: t).length + fuel = (t.length + fuel) + 1 := by
        simp [List.length_cons]; omega
      rw [harith]
      simp [removeTagsF, hc, ih hlt.2 fuel rest]

theorem removeTagsF_entityTagInput :
    ∀ l, EntityTagInput l → ∀ fuel, l.length ≤ fuel →
      Concat entityTokens (removeTagsF fuel l) := by
  intro l h
  induction h with
  | nil =>
      intro fuel _
      simp [removeTagsF]
      exact Concat.nil
  | ent t ht rest _ ih =>
      intro fuel hfuel
      have hlt : '<' ∉ t := by
        have : ∀ u ∈ entityTokens, '<' ∉ u := by decide
        exact this t ht
      have harith : fuel = t.length + (fuel - t.length) := by
        simp [List.length_append] at hfuel
        omega
      rw [harith, removeTagsF_skip t hlt]
      refine Concat.tok t ht _ (ih (fuel - t.length) ?_)
      simp [List.length_append] at hfuel
      omega
  | tag body hb rest _ ih =>
      intro fuel hfuel
      cases fuel with
      | zero => simp [List.length_cons] at hfuel
      | succ f =>
          have hstep : removeTagsF (f + 1) ('<' :: (body ++ '>' :: rest)) =
              removeTagsF f rest := by
            simp [removeTagsF, findGt_append body rest hb]
          rw [hstep]
          refine ih f ?_
          simp [List.length_cons, List.length_append] at hfuel
          omega

theorem concat_head_mem (S : List (List Char)) (rest : List Char)
    (hrest : Concat S rest) (hSne : ∀ t ∈ S, t ≠ []) :
    rest = [] ∨ ∃ c, rest.head? = some c ∧ ∃ t ∈ S, t.head? = some c := by
  rcases hrest with _ | ⟨t, ht, rest', h⟩
  · exact Or.inl rfl
  · rcases hts : t with _ | ⟨c, t''⟩
    · exact absurd hts (hSne t ht)
    · exact Or.inr ⟨c, by simp, t, ht, by simp [hts]⟩

theorem hstep_builder (S : List (List Char)) (C : List Char) (p : List Char)
    (hSne : ∀ t ∈ S, t ≠ [])
    (hheads : ∀ t ∈ S, t.head?.all (fun c => C.contains c) = true)
    (hcases : ∀ t ∈ S, t ≠ p →
      (t.isPrefixOf p = false ∧ p.isPrefixOf t = false) ∨
      (t.isPrefixOf p = true ∧
        (p.drop t.length).head?.all (fun c => !C.contains c) = true ∧
        p.drop t.length ≠ [])) :
    ∀ t ∈ S, t ≠ p → ∀ rest, Concat S rest → p.isPrefixOf (t ++ rest) = false := by
  intro t ht htp rest hrest
  rcases hcases t ht htp with ⟨h1, h2⟩ | ⟨h1, h2, h3⟩
  · exact isPrefixOf_append_eq_false p t h1 h2 rest
  · rw [isPrefixOf_append_of_take p t h1 rest]
    rcases hq : p.drop t.length with _ | ⟨c0, q⟩
    · exact absurd hq h3
    · rw [hq] at h2
      simp only [List.head?, Option.all, Bool.not_eq_eq_eq_not, Bool.not_true] at h2
      rcases concat_head_mem S rest hrest hSne with hnil | ⟨c, hc, t', ht', hhd⟩
      · subst hnil; rfl
      · cases rest with
        | nil => simp at hc
        | cons r rest' =>
            simp only [List.head?, Option.some.injEq] at hc
            subst hc
            have hcC : C.contains r = true := by
              have hh := hheads t' ht'
              rw [hhd] at hh
              simpa [Option.all] using hh
            have hne : (c0 == r) = false := by
              by_cases hcr : c0 = r
              · subst hcr; rw [hcC] at h2; cases h2
              · exact beq_eq_false_iff_ne.mpr hcr
            simp [List.isPrefixOf, hne]

theorem replaceSubF_skip_mid (S : List (List Char)) (p repl : List Char)
    (hmid : ∀ t ∈ S, ∀ c ∈ t.drop 1, p.head? ≠ some c) :
    ∀ (b a t : List Char), t ∈ S → t = a ++ b → a ≠ [] →
      ∀ fuel rest,
        replaceSubF p repl (b.length + fuel) (b ++ rest) =
          b ++ replaceSubF p repl fuel rest := by
  intro b
  induction b with
  | nil => intro a t _ _ _ fuel rest; simp
  | cons c b ih =>
      intro a t ht hteq ha fuel rest
      have hmem : c ∈ t.drop 1 := by
        rcases a with _ | ⟨d, a'⟩
        · exact absurd rfl ha
        · subst hteq; simp
      have hnomatch : ¬ (p ≠ [] ∧ p.isPrefixOf (c :: (b ++ rest)) = true) := by
        rintro ⟨hp, hpre⟩
        cases p with
        | nil => exact hp rfl
        | cons p0 ptail =>
            simp only [List.isPrefixOf, Bool.and_eq_true, beq_iff_eq] at hpre
            exact hmid t ht c hmem (by simp [hpre.1])
      have harith : (c :: b).length + fuel = (b.length + fuel) + 1 := by
        simp only [List.length_cons]; omega
      rw [harith]
      have hstep : replaceSubF p repl ((b.length + fuel) + 1) ((c :: b) ++ rest) =
          c :: replaceSubF p repl (b.length + fuel) (b ++ rest) := by
        show (if p ≠ [] ∧ p.isPrefixOf (c :: (b ++ rest)) = true then
            repl ++ replaceSubF p repl (b.length + fuel)
              (List.drop p.length (c :: (b ++ rest)))
          else c :: replaceSubF p repl (b.length + fuel) (b ++ rest)) = _
        rw [if_neg hnomatch]
      rw [hstep, ih (a ++ [c]) t ht (by simp [hteq]) (by simp) fuel rest]
      rfl

theorem replaceSub_concat_pass (S Sn : List (List Char)) (p repl : List Char)
    (hstep : ∀ t ∈ S, t ≠ p → ∀ rest, Concat S rest → p.isPrefixOf (t ++ rest) = false)
    (hmid : ∀ t ∈ S, ∀ c ∈ t.drop 1, p.head? ≠ some c)
    (hSne : ∀ t ∈ S, t ≠ [])
    (hrepl : repl ∈ Sn) (hSn : ∀ t ∈ S, t ≠ p → t ∈ Sn) :
    ∀ l, Concat S l → ∀ fuel, l.length ≤ fuel →
      Concat Sn (replaceSubF p repl fuel l) := by
  intro l h
  induction h with
  | nil =>
      intro fuel _
      simp only [replaceSubF]
      exact Concat.nil
  | tok t ht rest hrest ih =>
      intro fuel hfuel
      have htne := hSne t ht
      rcases hts : t with _ | ⟨c, t'⟩
      · exact absurd hts htne
      subst hts
      cases fuel with
      | zero => simp [List.length_append, List.length_cons] at hfuel
      | succ f =>
          have hlen : t'.length + rest.length ≤ f := by
            simp [List.length_append, List.length_cons] at hfuel
            omega
          by_cases htp : (c :: t') = p
          · subst htp
            have hun : replaceSubF (c :: t') repl (f + 1) ((c :: t') ++ rest) =
                repl ++ replaceSubF (c :: t') repl f rest := by
              show (if (c :: t') ≠ [] ∧
                    (c :: t').isPrefixOf (c :: (t' ++ rest)) = true then
                  repl ++ replaceSubF (c :: t') repl f
                    (List.drop (c :: t').length (c :: (t' ++ rest)))
                else c :: replaceSubF (c :: t') repl f (t' ++ rest)) = _
              rw [if_pos ⟨by simp, isPrefixOf_append_self (c :: t') rest⟩]
              congr 1
              show replaceSubF (c :: t') repl f
                  (List.drop (c :: t').length ((c :: t') ++ rest)) = _
              rw [List.drop_left]
            rw [hun]
            exact Concat.tok repl hrepl _ (ih f (by omega))
          · have hno := hstep (c :: t') ht htp rest hrest
            rw [List.cons_append] at hno
            have hun : replaceSubF p repl (f + 1) ((c :: t') ++ rest) =
                c :: replaceSubF p repl f (t' ++ rest) := by
              show (if p ≠ [] ∧ p.isPrefixOf (c :: (t' ++ rest)) = true then
                  repl ++ replaceSubF p repl f
                    (List.drop p.length (c :: (t' ++ rest)))
                else c :: replaceSubF p repl f (t' ++ rest)) = _
              rw [if_neg (by rintro ⟨-, hpre⟩; rw [hno] at hpre; cases hpre)]
            rw [hun]
            have hf : f = t'.length + (f - t'.length) := by omega
            rw [hf, replaceSubF_skip_mid S p repl hmid t' [c] (c :: t') ht rfl
              (by simp) (f - t'.length) rest]
            have hx := ih (f - t'.length) (by omega)
            exact Concat.tok (c :: t') (hSn _ ht htp) _ hx

theorem concat_not_mem (S : List (List Char)) (c : Char)
    (hS : ∀ t ∈ S, c ∉ t) : ∀ l, Concat S l → c ∉ l := by
  intro l h
  induction h with
  | nil => simp
  | tok t ht rest _ ih =>
      simp only [List.mem_append, not_or]
      exact ⟨hS t ht, ih⟩

theorem mem_collapseWS : ∀ (l : List Char) (c : Char), c ∈ collapseWS l → c = ' ' ∨ c ∈ l
  | [], c, h => by simp [collapseWS] at h
  | [d], c, h => by
      by_cases hd : isJsWS d
      · simp [collapseWS, hd] at h
        exact Or.inl h
      · simp [collapseWS, hd] at h
        exact Or.inr (by simp [h])
  | d :: e :: l, c, h => by
      by_cases h1 : isJsWS d <;> by_cases h2 : isJsWS e
      · simp only [collapseWS, h1, h2, Bool.and_self, if_true] at h
        rcases mem_collapseWS (e :: l) c h with h' | h'
        · exact Or.inl h'
        · exact Or.inr (List.mem_cons_of_mem d h')
      · simp only [collapseWS, h1, h2, Bool.and_false, Bool.false_eq_true, if_false,
          if_true, List.mem_cons] at h
        rcases h with h | h
        · exact Or.inl h
        · rcases mem_collapseWS (e :: l) c h with h' | h'
          · exact Or.inl h'
          · exact Or.inr (List.mem_cons_of_mem d h')
      · simp only [collapseWS, h1, Bool.false_and, Bool.false_eq_true, if_false,
          List.mem_cons] at h
        rcases h with h | h
        · exact Or.inr (by simp [h])
        · rcases mem_collapseWS (e :: l) c h with h' | h'
          · exact Or.inl h'
          · exact Or.inr (List.mem_cons_of_mem d h')
      · simp only [collapseWS, h1, Bool.false_and, Bool.false_eq_true, if_false,
          List.mem_cons] at h
        rcases h with h | h
        · exact Or.inr (by simp [h])
        · rcases mem_collapseWS (e :: l) c h with h' | h'
          · exact Or.inl h'
          · exact Or.inr (List.mem_cons_of_mem d h')

theorem mem_dropTrailingWS : ∀ (l : List Char) (c : Char), c ∈ dropTrailingWS l → c ∈ l
  | [], _, h => h
  | d :: l, c, h => by
      by_cases he : dropTrailingWS l = []
      · by_cases hd : isJsWS d
        · simp [dropTrailingWS, he, hd] at h
        · simp [dropTrailingWS, he, hd] at h
          simp [h]
      · simp only [dropTrailingWS, if_neg he, List.mem_cons] at h
        rcases h with h | h
        · simp [h]
        · exact List.mem_cons_of_mem d (mem_dropTrailingWS l c h)

theorem mem_dropWhileWS :
    ∀ (l : List Char) (c : Char) (f : Char → Bool), c ∈ l.dropWhile f → c ∈ l
  | [], _, _, h => h
  | d :: l, c, f, h => by
      rw [List.dropWhile_cons] at h
      by_cases hd : f d
      · simp only [hd, if_true] at h
        exact List.mem_cons_of_mem d (mem_dropWhileWS l c f h)
      · simpa [hd] using h

/-- The whitelisted-entity decoding passes map an entity/tag input through
tag removal and the six replacements to a concatenation of decoded
characters, none of which is `';'` — hence the output of `stripHtml`
contains no residual whitelisted entity sequence (each ends in `';'`). -/
theorem stripHtml_no_residual_entities (s : String) (h : EntityTagInput s.toList) :
    ∀ ent ∈ entityTokens, ¬ ent <:+: (stripHtml (some s)).toList := by
  intro ent hent hinf
  have hsemi : ';' ∈ ent := by
    have hall : ∀ u ∈ entityTokens, ';' ∈ u := by decide
    exact hall ent hent
  have hmem : ';' ∈ (stripHtml (some s)).toList := hinf.subset hsemi
  by_cases hs : s = ""
  · rw [hs] at hmem
    simp [stripHtml] at hmem
  · have h0 : Concat entityTokens (removeTags s.toList) :=
      removeTagsF_entityTagInput _ h _ (le_refl _)
    have h1 : Concat decodeTokens1
        (replaceSub "&nbsp;".toList " ".toList (removeTags s.toList)) :=
      replaceSub_concat_pass entityTokens decodeTokens1 _ _
        (hstep_builder entityTokens ['&'] _ (by decide) (by decide) (by decide))
        (by decide) (by decide) (by decide) (by decide) _ h0 _ (le_refl _)
    have h2 : Concat decodeTokens2
        (replaceSub "&amp;".toList "&".toList
          (replaceSub "&nbsp;".toList " ".toList (removeTags s.toList))) :=
      replaceSub_concat_pass decodeTokens1 decodeTokens2 _ _
        (hstep_builder decodeTokens1 [' ', '&'] _ (by decide) (by decide) (by decide))
        (by decide) (by decide) (by decide) (by decide) _ h1 _ (le_refl _)
    have h3 : Concat decodeTokens3
        (replaceSub "&lt;".toList "<".toList
          (replaceSub "&amp;".toList "&".toList
            (replaceSub "&nbsp;".toList " ".toList (removeTags s.toList)))) :=
      replaceSub_concat_pass decodeTokens2 decodeTokens3 _ _
        (hstep_builder decodeTokens2 [' ', '&'] _ (by decide) (by decide) (by decide))
        (by decide) (by decide) (by decide) (by decide) _ h2 _ (le_refl _)
    have h4 : Concat decodeTokens4
        (replaceSub "&gt;".toList ">".toList
          (replaceSub "&lt;".toList "<".toList
            (replaceSub "&amp;".toList "&".toList
              (replaceSub "&nbsp;".toList " ".toList (removeTags s.toList))))) :=
      replaceSub_concat_pass decodeTokens3 decodeTokens4 _ _
        (hstep_builder decodeTokens3 [' ', '&', '<'] _ (by decide) (by decide)
          (by decide))
        (by decide) (by decide) (by decide) (by decide) _ h3 _ (le_refl _)
    have h5 : Concat decodeTokens5
        (replaceSub "&quot;".toList "\"".toList
          (replaceSub "&gt;".toList ">".toList
            (replaceSub "&lt;".toList "<".toList
              (replaceSub "&amp;".toList "&".toList
                (replaceSub "&nbsp;".toList " ".toList (removeTags s.toList)))))) :=
      replaceSub_concat_pass decodeTokens4 decodeTokens5 _ _
        (hstep_builder decodeTokens4 [' ', '&', '<', '>'] _ (by decide) (by decide)
          (by decide))
        (by decide) (by decide) (by decide) (by decide) _ h4 _ (le_refl _)
    have h6 : Concat decodeTokens6 (decodeEntities (removeTags s.toList)) :=
      replaceSub_concat_pass decodeTokens5 decodeTokens6 _ _
        (hstep_builder decodeTokens5 [' ', '&', '<', '>', '"'] _ (by decide)
          (by decide) (by decide))
        (by decide) (by decide) (by decide) (by decide) _ h5 _ (le_refl _)
    have hno : ';' ∉ decodeEntities (removeTags s.toList) :=
      concat_not_mem decodeTokens6 ';' (by decide) _ h6
    rw [stripHtml] at hmem
    simp only [hs, if_false, stripHtmlCore, toList_asString] at hmem
    have hm1 : ';' ∈ collapseWS (decodeEntities (removeTags s.toList)) :=
      mem_dropWhileWS _ _ _ (mem_dropTrailingWS _ _ hmem)
    rcases mem_collapseWS _ _ hm1 with h' | h'
    · exact absurd h' (by decide)
    · exact hno h'

/-! ## C4: the HTML sanitizer -/

/-- C4 (counterexample): the claim says the sanitizer's output contains no
`<` or `>` characters for inputs made of whitelisted entities and tags, but
decoding the whitelisted entity `&lt;` produces exactly the string `"<"`,
which contains `<`. -/
theorem C4_counterexample :
    stripHtml (some "&lt;") = "<" ∧ '<' ∈ (stripHtml (some "&lt;")).toList := by
  refine ⟨by decide, by decide⟩

/-- C4 (amended): null or empty input yields the empty string; tag markup is
stripped before entity decoding (so `&lt;b&gt;` survives as literal `<b>`
instead of being stripped); runs of whitespace collapse to a single space and
the result is trimmed (`wsClean`); for every input that is a concatenation of
whitelisted entities and complete tags the output contains no residual
whitelisted entity sequence; but because `&lt;`/`&gt;` decode to angle
brackets, the output can contain `<`/`>`. -/
theorem C4_amended :
    stripHtml none = "" ∧
    stripHtml (some "") = "" ∧
    (∀ s : String, wsClean (stripHtml (some s)).toList = true) ∧
    stripHtml (some "<p>Hello &amp; <b>world</b>!</p>") = "Hello & world!" ∧
    stripHtml (some "&lt;b&gt;") = "<b>" ∧
    stripHtml (some " a \t  b ") = "a b" ∧
    (∀ s : String, EntityTagInput s.toList →
      ∀ ent ∈ entityTokens, ¬ ent <:+: (stripHtml (some s)).toList) := by
  refine ⟨rfl, by decide, ?_, by decide, by decide, by decide,
    fun s h => stripHtml_no_residual_entities s h⟩
  intro s
  by_cases h : s = ""
  · simp [stripHtml, h, wsClean, noAdjWS, headNotWS, lastNotWS]
  · simp only [stripHtml, h, if_false, stripHtmlCore, toList_asString]
    exact wsClean_trim_collapse _

/-- C4 (witness for the amended theorem): whitespace normalization at a
concrete input, and no residual entity sequence in the output of a
concrete entity/tag-only input. -/
theorem C4_amended_witness :
    wsClean (stripHtml (some " q \t r ")).toList = true ∧
    ¬ "&nbsp;".toList <:+: (stripHtml (some "&amp;&lt;")).toList :=
  ⟨C4_amended.2.2.1 " q \t r ",
   C4_amended.2.2.2.2.2.2 "&amp;&lt;"
     (EntityTagInput.ent "&amp;".toList (by decide) _
       (EntityTagInput.ent "&lt;".toList (by decide) _ EntityTagInput.nil))
     "&nbsp;".toList (by decide)⟩

/-! ## C5 and C1: the error translator -/

/-- C5: `handleErrors` maps each failed response to exactly one category by
status — 401 AuthenticationError, 403 ForbiddenError, 404 NotFoundError,
429 RateLimitError, any other status ≥ 400 ApiError — each carrying the
response's status code; every response with status < 400 is returned
unchanged. -/
theorem C5_status_taxonomy :
    ∀ r : HttpResponse,
      (r.status < 400 → handleErrors r = .ok r) ∧
      (400 ≤ r.status →
        ∃ e : ZErr, handleErrors r = .error e ∧ e.status = r.status ∧
          e.code = (if r.status = 401 then "AuthenticationError"
            else if r.status = 403 then "ForbiddenError"
            else if r.status = 404 then "NotFoundError"
            else if r.status = 429 then "RateLimitError"
            else "ApiError")) := by
  intro r
  constructor
  · intro h
    have hn : ¬ 400 ≤ r.status := by omega
    simp [handleErrors, hn]
  · intro h
    simp only [handleErrors, if_pos h]
    split
    · exact ⟨_, rfl, rfl, by simp [*]⟩
    · split
      · exact ⟨_, rfl, rfl, by simp [*]⟩
      · split
        · exact ⟨_, rfl, rfl, by simp [*]⟩
        · split
          · exact ⟨_, rfl, rfl, by simp [*]⟩
          · exact ⟨_, rfl, rfl, by simp [*]⟩

/-- C5 (witness): the taxonomy at statuses 200 and 500. -/
theorem C5_witness :
    (handleErrors ⟨200, none⟩ = .ok ⟨200, none⟩) ∧
    (∃ e : ZErr, handleErrors ⟨500, none⟩ = .error e ∧ e.status = 500 ∧
      e.code = "ApiError") := by
  refine ⟨(C5_status_taxonomy ⟨200, none⟩).1 (by decide), ?_⟩
  obtain ⟨e, he, hs, hc⟩ := (C5_status_taxonomy ⟨500, none⟩).2 (by decide)
  exact ⟨e, he, hs, by simpa using hc⟩

/-- C1 (counterexample): for status 500 with body
`{errors:[{message:'x'},{detail:'y'}]}` the translator never reads
`body.errors[]`; it produces the placeholder message
`"Productboard API error: Unknown API error"`, which contains neither
`'x'` nor `'y'` — refuting both the errors[]-joining fallback chain and the
no-placeholder guarantee. -/
theorem C1_counterexample :
    handleErrors ⟨500, some ⟨none, none, some [⟨some "x", none⟩, ⟨none, some "y"⟩],
        none, none⟩⟩
      = .error ⟨"Productboard API error: Unknown API error", "ApiError", 500⟩ ∧
    'x' ∉ "Productboard API error: Unknown API error".toList ∧
    'y' ∉ "Productboard API error: Unknown API error".toList := by
  refine ⟨rfl, by decide, by decide⟩

/-- C1 (amended): for statuses ≥ 400 other than 401/403/404/429 the
translator builds its message by trying only `body.message`, then
`body.error`, then the fixed placeholder `'Unknown API error'`;
`body.errors[]`, `body.detail` and `body.title` are never consulted, and
the message is never empty (it always carries the
`"Productboard API error: "` head). -/
theorem C1_generic_message :
    ∀ r : HttpResponse, 400 ≤ r.status →
      r.status ≠ 401 → r.status ≠ 403 → r.status ≠ 404 → r.status ≠ 429 →
      ∃ e : ZErr, handleErrors r = .error e ∧
        e.message = "Productboard API error: " ++
          jsOrStr (r.data.getD emptyErrorBody).message
            (jsOrStr (r.data.getD emptyErrorBody).error "Unknown API error") ∧
        e.message ≠ "" ∧
        (∀ errs detail title,
          handleErrors ⟨r.status, some ⟨(r.data.getD emptyErrorBody).message,
            (r.data.getD emptyErrorBody).error, errs, detail, title⟩⟩ = handleErrors r) := by
  intro r h h1 h2 h3 h4
  have hne : ∀ m : String, ("Productboard API error: " ++ m) ≠ "" := by
    intro m hEq
    have hlen := congrArg String.length hEq
    simp [String.length_append] at hlen
    exact absurd hlen.1 (by decide)
  have hmain : handleErrors r = .error ⟨"Productboard API error: " ++
      jsOrStr (r.data.getD emptyErrorBody).message
        (jsOrStr (r.data.getD emptyErrorBody).error "Unknown API error"),
      "ApiError", r.status⟩ := by
    simp [handleErrors, h, h1, h2, h3, h4]
  refine ⟨_, hmain, rfl, hne _, ?_⟩
  intro errs detail title
  simp [handleErrors, h, h1, h2, h3, h4]

/-- C1 (witness for the amended theorem): status 500 with a body whose only
recognized field is `error`. -/
theorem C1_generic_message_witness :
    ∃ e : ZErr,
      handleErrors ⟨500, some ⟨none, some "boom", none, none, none⟩⟩ = .error e ∧
      e.message = "Productboard API error: " ++
        jsOrStr ((some (ErrorBody.mk none (some "boom") none none none)).getD
            emptyErrorBody).message
          (jsOrStr ((some (ErrorBody.mk none (some "boom") none none none)).getD
              emptyErrorBody).error "Unknown API error") ∧
      e.message ≠ "" ∧
      (∀ errs detail title,
        handleErrors ⟨500, some ⟨none, some "boom", errs, detail, title⟩⟩ =
          handleErrors ⟨500, some ⟨none, some "boom", none, none, none⟩⟩) :=
  C1_generic_message ⟨500, some ⟨none, some "boom", none, none, none⟩⟩
    (by decide) (by decide) (by decide) (by decide) (by decide)

/-! ## C2: 404 handling in the lookup handlers -/

/-- C2: for both the get-entity-by-id handler and the relationships handler,
a failed call whose error carries status 404 yields the successful empty
result `[]`, while any other failure is propagated unchanged. -/
theorem C2_404_to_empty :
    ∀ (entityId : Option String) (err : ZErr),
      (err.status = 404 →
        getEntityPerform entityId (.error err) = .ok [] ∧
        getEntityRelationshipsPerform entityId (.error err) = .ok []) ∧
      (err.status ≠ 404 → jsTruthyStr entityId = true →
        getEntityPerform entityId (.error err) = .error err ∧
        getEntityRelationshipsPerform entityId (.error err) = .error err) := by
  intro entityId err
  constructor
  · intro h
    by_cases ht : jsTruthyStr entityId
    · simp [getEntityPerform, getEntityRelationshipsPerform, ht, h]
    · simp only [Bool.not_eq_true] at ht
      simp [getEntityPerform, getEntityRelationshipsPerform, ht]
  · intro h ht
    simp [getEntityPerform, getEntityRelationshipsPerform, ht, h]

/-- C2 (witness): a 404 yields `[]`, a 500 is propagated. -/
theorem C2_witness :
    (getEntityPerform (some "ent1") (.error ⟨"nf", "NotFoundError", 404⟩) = .ok [] ∧
     getEntityRelationshipsPerform (some "ent1")
        (.error ⟨"nf", "NotFoundError", 404⟩) = .ok []) ∧
    (getEntityPerform (some "ent1") (.error ⟨"boom", "ApiError", 500⟩) =
        .error ⟨"boom", "ApiError", 500⟩ ∧
     getEntityRelationshipsPerform (some "ent1") (.error ⟨"boom", "ApiError", 500⟩) =
        .error ⟨"boom", "ApiError", 500⟩) :=
  ⟨(C2_404_to_empty (some "ent1") ⟨"nf", "NotFoundError", 404⟩).1 rfl,
   (C2_404_to_empty (some "ent1") ⟨"boom", "ApiError", 500⟩).2 (by decide) (by decide)⟩

/-! ## C3: totality and defaults of the entity formatter -/

/-- C3 (counterexample): the claim says every absent string-valued leaf
defaults to the empty string, but `createdAt` (like `id` and `type`) is
passed through without a default: on the empty raw entity it stays absent
(`none`, i.e. `undefined`), not `""`. -/
theorem C3_counterexample :
    (formatEntity ⟨none, none, none, none, none⟩).createdAt = none ∧
    (formatEntity ⟨none, none, none, none, none⟩).id = none ∧
    (none : Option String) ≠ some "" :=
  ⟨rfl, rfl, by decide⟩

/-- C3 (amended): `formatEntity` is total on raw entities and yields a
record with every documented key.  The defaulted leaves (name, description,
descriptionPlainText, status, statusId, owner and timeframe scalars, and in
health: previousStatus, comment, commentPlainText, updatedBy scalars)
default to `""`, `archived` defaults to `false`, and the health sub-object
is `null` exactly when the raw entity has no health field; but the identity
and timestamp leaves (`id`, `type`, `createdAt`, `updatedAt`, and health's
`id`, `status`, `mode`, `lastUpdatedAt`) pass through unchanged, staying
absent rather than defaulting to `""`. -/
theorem C3_total_defaults :
    ∀ e : RawEntity,
      ((formatEntity e).health = none ↔ (e.fields.bind RawFields.health) = none) ∧
      ((formatEntity e).id = e.id ∧ (formatEntity e).type = e.type ∧
        (formatEntity e).createdAt = e.createdAt ∧
        (formatEntity e).updatedAt = e.updatedAt) ∧
      ((e.fields.getD emptyRawFields).name = none → (formatEntity e).name = "") ∧
      ((e.fields.getD emptyRawFields).description = none →
        (formatEntity e).description = "" ∧
        (formatEntity e).descriptionPlainText = "") ∧
      ((e.fields.getD emptyRawFields).status.bind RawStatus.name = none →
        (formatEntity e).status = "") ∧
      ((e.fields.getD emptyRawFields).status.bind RawStatus.id = none →
        (formatEntity e).statusId = "") ∧
      ((e.fields.getD emptyRawFields).archived = none →
        (formatEntity e).archived = false) ∧
      ((e.fields.getD emptyRawFields).owner.bind RawMember.email = none →
        (formatEntity e).ownerEmail = "") ∧
      ((e.fields.getD emptyRawFields).owner.bind RawMember.id = none →
        (formatEntity e).ownerId = "") ∧
      ((e.fields.getD emptyRawFields).timeframe.bind RawTimeframe.startDate = none →
        (formatEntity e).startDate = "") ∧
      ((e.fields.getD emptyRawFields).timeframe.bind RawTimeframe.endDate = none →
        (formatEntity e).endDate = "") ∧
      (e.fields = none →
        formatEntity e =
          { id := e.id
            type := e.type
            name := ""
            description := ""
            descriptionPlainText := ""
            url := getEntityUrl (optToJsStr e.type) (optToJsStr e.id)
            status := ""
            statusId := ""
            archived := false
            ownerEmail := ""
            ownerId := ""
            startDate := ""
            endDate := ""
            createdAt := e.createdAt
            updatedAt := e.updatedAt
            health := none }) ∧
      (∀ f h, e.fields = some f → f.health = some h →
        (formatEntity e).health = some
          { id := h.id
            status := h.status
            previousStatus := jsOrStr h.previousStatus ""
            mode := h.mode
            comment := jsOrStr h.comment ""
            commentPlainText := stripHtml h.comment
            lastUpdatedAt := h.lastUpdatedAt
            updatedByEmail := jsOrStr (h.createdBy.bind RawMember.email) ""
            updatedById := jsOrStr (h.createdBy.bind RawMember.id) "" }) := by
  intro e
  refine ⟨?_, ⟨rfl, rfl, rfl, rfl⟩, ?_, ?_, ?_, ?_, ?_, ?_, ?_, ?_, ?_, ?_, ?_⟩
  · cases hf : e.fields with
    | none => simp [formatEntity, hf, emptyRawFields]
    | some f => cases hh : f.health <;> simp [formatEntity, hf, hh]
  · intro h
    simp [formatEntity, h, jsOrStr]
  · intro h
    simp [formatEntity, h, jsOrStr, stripHtml]
  · intro h
    simp [formatEntity, h, jsOrStr]
  · intro h
    simp [formatEntity, h, jsOrStr]
  · intro h
    simp [formatEntity, h]
  · intro h
    simp [formatEntity, h, jsOrStr]
  · intro h
    simp [formatEntity, h, jsOrStr]
  · intro h
    simp [formatEntity, h, jsOrStr]
  · intro h
    simp [formatEntity, h, jsOrStr]
  · intro hf
    simp [formatEntity, hf, emptyRawFields, jsOrStr, stripHtml]
  · intro f h hf hh
    simp [formatEntity, hf, hh]

/-- C3 (witness): the amended theorem at an entity with no `fields` key,
and at the sample entity (whose health is present). -/
theorem C3_witness :
    (formatEntity ⟨some "e1", some "feature", none, some "t0", none⟩ =
      { id := some "e1"
        type := some "feature"
        name := ""
        description := ""
        descriptionPlainText := ""
        url := getEntityUrl "feature" "e1"
        status := ""
        statusId := ""
        archived := false
        ownerEmail := ""
        ownerId := ""
        startDate := ""
        endDate := ""
        createdAt := some "t0"
        updatedAt := none
        health := none }) ∧
    (formatEntity ⟨some "e2", some "feature", some emptyRawFields, none, none⟩).name =
      "" ∧
    (formatEntity ⟨some "e2", some "feature", some emptyRawFields, none, none⟩).status =
      "" ∧
    (formatEntity
        ⟨some "e2", some "feature", some emptyRawFields, none, none⟩).archived =
      false ∧
    ((formatEntity sampleHealthEntity).health = none ↔
      (sampleHealthEntity.fields.bind RawFields.health) = none) := by
  obtain ⟨-, -, -, -, -, -, -, -, -, -, -, h12, -⟩ :=
    C3_total_defaults ⟨some "e1", some "feature", none, some "t0", none⟩
  obtain ⟨-, -, h3, -, h5, -, h7, -, -, -, -, -, -⟩ :=
    C3_total_defaults ⟨some "e2", some "feature", some emptyRawFields, none, none⟩
  exact ⟨h12 rfl, h3 rfl, h5 rfl, h7 rfl, (C3_total_defaults sampleHealthEntity).1⟩

/-! ## C6, C7, C8: the filter builder -/

/-- C6 (counterexample): for array-valued inputs the builder neither trims
nor omits — an empty array still emits the `statuses` key with an empty
list, and array elements are passed through untrimmed. -/
theorem C6_counterexample :
    (buildSearchData { emptyListInputs with statusNames := some (.arr []) }).statuses =
      some [] ∧
    (buildSearchData { emptyListInputs with
        statusNames := some (.arr [" In Progress "]) }).statuses =
      some [⟨" In Progress "⟩] :=
  ⟨rfl, rfl⟩

/-- C6 (amended): comma-separated string inputs are split and each piece
trimmed, order preserved, with the field omitted when the input is absent
or the empty string; array inputs are passed through as-is (untrimmed, and
an empty array still emits the field).  In particular
`statusNames = 'In Progress, Done'` yields exactly
`['In Progress','Done']`. -/
theorem C6_multi_filters :
    ((buildSearchData { emptyListInputs with
        statusNames := some (.str "In Progress, Done") }).statuses =
      some [⟨"In Progress"⟩, ⟨"Done"⟩]) ∧
    ((buildSearchData { emptyListInputs with
        ownerEmails := some (.str " a@b.c ,d@e.f") }).owners =
      some [⟨"a@b.c"⟩, ⟨"d@e.f"⟩]) ∧
    (∀ s : String, s ≠ "" →
      (buildSearchData { emptyListInputs with statusNames := some (.str s) }).statuses =
        some (((jsSplitComma s).map jsTrim).map fun n => ⟨n⟩)) ∧
    (∀ l : List String,
      (buildSearchData { emptyListInputs with statusNames := some (.arr l) }).statuses =
        some (l.map fun n => ⟨n⟩)) ∧
    (buildSearchData emptyListInputs).statuses = none ∧
    ((buildSearchData { emptyListInputs with statusNames := some (.str "") }).statuses =
      none) ∧
    (buildSearchData emptyListInputs).owners = none := by
  refine ⟨by decide, by decide, ?_, ?_, rfl, rfl, rfl⟩
  · intro s hs
    simp [buildSearchData, multiField, resolveMulti, hs]
  · intro l
    simp [buildSearchData, multiField, resolveMulti]

/-- C6 (witness): the string branch of the amended theorem at `"A ,B"`. -/
theorem C6_witness :
    (buildSearchData { emptyListInputs with statusNames := some (.str "A ,B") }).statuses =
      some (((jsSplitComma "A ,B").map jsTrim).map fun n => ⟨n⟩) :=
  C6_multi_filters.2.2.1 "A ,B" (by decide)

/-- C7: the archived filter has exactly three states — input `'all'` omits
the archived key, `'true'` yields the boolean constraint `true`, `'false'`
yields `false` — whatever the other inputs are. -/
theorem C7_archived_three_states :
    ∀ i : ListInputs,
      (buildSearchData { i with archived := some "all" }).archived = none ∧
      (buildSearchData { i with archived := some "true" }).archived = some true ∧
      (buildSearchData { i with archived := some "false" }).archived = some false := by
  intro i
  exact ⟨rfl, rfl, rfl⟩

/-- C8: the timeframe filter splits into independent start/end bounds; each
bound appears in the built filter exactly when its input is present
(JS-truthy), and no timeframe key appears at all when both are absent. -/
theorem C8_timeframe_bounds :
    ∀ i : ListInputs,
      ((buildSearchData i).timeframe = none ↔
        (jsTruthyStr i.startDate = false ∧ jsTruthyStr i.endDate = false)) ∧
      ((buildSearchData i).timeframe.bind TimeframeFilter.startDate =
        if jsTruthyStr i.startDate then i.startDate else none) ∧
      ((buildSearchData i).timeframe.bind TimeframeFilter.endDate =
        if jsTruthyStr i.endDate then i.endDate else none) := by
  intro i
  by_cases hs : jsTruthyStr i.startDate <;> by_cases he : jsTruthyStr i.endDate <;>
    simp [buildSearchData, hs, he]

/-- C7 (witness): the three archived states over the empty input set. -/
theorem C7_witness :
    (buildSearchData { emptyListInputs with archived := some "all" }).archived = none ∧
    (buildSearchData { emptyListInputs with archived := some "true" }).archived =
      some true ∧
    (buildSearchData { emptyListInputs with archived := some "false" }).archived =
      some false :=
  C7_archived_three_states emptyListInputs

/-- C8 (witness): the timeframe bounds with only an end date supplied. -/
theorem C8_witness :
    ((buildSearchData { emptyListInputs with endDate := some "2025-03-31" }).timeframe =
        none ↔
      (jsTruthyStr ({ emptyListInputs with
          endDate := some "2025-03-31" } : ListInputs).startDate = false ∧
       jsTruthyStr ({ emptyListInputs with
          endDate := some "2025-03-31" } : ListInputs).endDate = false)) ∧
    ((buildSearchData { emptyListInputs with
        endDate := some "2025-03-31" }).timeframe.bind TimeframeFilter.startDate =
      if jsTruthyStr ({ emptyListInputs with
          endDate := some "2025-03-31" } : ListInputs).startDate
      then ({ emptyListInputs with endDate := some "2025-03-31" } : ListInputs).startDate
      else none) ∧
    ((buildSearchData { emptyListInputs with
        endDate := some "2025-03-31" }).timeframe.bind TimeframeFilter.endDate =
      if jsTruthyStr ({ emptyListInputs with
          endDate := some "2025-03-31" } : ListInputs).endDate
      then ({ emptyListInputs with endDate := some "2025-03-31" } : ListInputs).endDate
      else none) :=
  C8_timeframe_bounds { emptyListInputs with endDate := some "2025-03-31" }

/-! ## C9: the health-update handler -/

/-- C9: the health-update handler issues exactly two calls, in order: a
PATCH to the entity carrying the health payload (status passed through,
mode defaulting to `'manual'`, comment and createdBy only when supplied),
then a GET of the same entity; its return value is the formatted record of
the GET response and is independent of the PATCH response. -/
theorem C9_patch_then_get :
    ∀ (i : CreateHealthInputs) (patchResp getResp : EntityBody),
      (createHealthUpdatePerform i patchResp getResp).1 =
        [{ url := "https://api.productboard.com/v2/entities/" ++ i.entityId
           method := .PATCH
           body := some (buildHealthUpdate i) },
         { url := "https://api.productboard.com/v2/entities/" ++ i.entityId
           method := .GET
           body := none }] ∧
      (createHealthUpdatePerform i patchResp getResp).2 =
        formatEntity (extractEntity getResp) ∧
      (∀ patchResp2 : EntityBody,
        createHealthUpdatePerform i patchResp2 getResp =
          createHealthUpdatePerform i patchResp getResp) ∧
      (i.mode = none → (buildHealthUpdate i).mode = "manual") ∧
      (buildHealthUpdate i).status = i.status ∧
      (i.comment = none → (buildHealthUpdate i).comment = none) ∧
      (i.createdById = none → (buildHealthUpdate i).createdBy = none) := by
  intro i p g
  refine ⟨rfl, rfl, fun p2 => rfl, ?_, rfl, ?_, ?_⟩ <;> intro h <;>
    simp [buildHealthUpdate, h, jsOrStr]

/-- C9 (witness): the handler at a concrete input with defaulted mode and
no comment. -/
theorem C9_witness :
    (createHealthUpdatePerform ⟨"ent1", "onTrack", none, none, none⟩
        ⟨none, ⟨none, none, none, none, none⟩⟩
        ⟨none, ⟨none, none, none, none, none⟩⟩).2 =
      formatEntity (extractEntity ⟨none, ⟨none, none, none, none, none⟩⟩) ∧
    (buildHealthUpdate ⟨"ent1", "onTrack", none, none, none⟩).mode = "manual" ∧
    (buildHealthUpdate ⟨"ent1", "onTrack", none, none, none⟩).comment = none := by
  have h := C9_patch_then_get ⟨"ent1", "onTrack", none, none, none⟩
    ⟨none, ⟨none, none, none, none, none⟩⟩ ⟨none, ⟨none, none, none, none, none⟩⟩
  exact ⟨h.2.1, h.2.2.2.1 rfl, h.2.2.2.2.2.1 rfl⟩

/-! ## C10: the health-updates polling trigger -/

theorem mem_insertDescBy {α : Type} (key : α → Int) (x a : α) :
    (l : List α) → (a ∈ insertDescBy key x l ↔ a = x ∨ a ∈ l)
  | [] => by simp [insertDescBy]
  | y :: ys => by
      by_cases h : key y ≤ key x
      · simp [insertDescBy, h]
      · simp [insertDescBy, h, mem_insertDescBy key x a ys]
        tauto

theorem mem_sortDescBy {α : Type} (key : α → Int) (a : α) :
    (l : List α) → (a ∈ sortDescBy key l ↔ a ∈ l)
  | [] => Iff.rfl
  | x :: xs => by
      simp [sortDescBy, mem_insertDescBy, mem_sortDescBy key a xs]

theorem headKeyLe_insertDescBy {α : Type} (key : α → Int) (b : Int) (x : α)
    (l : List α) (hx : key x ≤ b) (hl : headKeyLe key b l = true) :
    headKeyLe key b (insertDescBy key x l) = true := by
  cases l with
  | nil => simp [insertDescBy, headKeyLe, hx]
  | cons y ys =>
      by_cases h : key y ≤ key x
      · simp [insertDescBy, h, headKeyLe, hx]
      · simpa [insertDescBy, h, headKeyLe] using hl

theorem sortedDescBy_insertDescBy {α : Type} (key : α → Int) (x : α) :
    (l : List α) → sortedDescBy key l = true →
      sortedDescBy key (insertDescBy key x l) = true
  | [], _ => by simp [insertDescBy, sortedDescBy, headKeyLe]
  | y :: ys, h => by
      have h0 : (headKeyLe key (key y) ys && sortedDescBy key ys) = true := by
        simpa [sortedDescBy] using h
      rw [Bool.and_eq_true] at h0
      by_cases hxy : key y ≤ key x
      · have hhd : headKeyLe key (key x) (y :: ys) = true := by
          simp [headKeyLe, hxy]
        simp [insertDescBy, hxy, sortedDescBy, hhd, h0.1, h0.2]
      · have hxle : key x ≤ key y := by omega
        have ih := sortedDescBy_insertDescBy key x ys h0.2
        have hh := headKeyLe_insertDescBy key (key y) x ys hxle h0.1
        simp [insertDescBy, hxy, sortedDescBy, ih, hh]

theorem sortedDescBy_sortDescBy {α : Type} (key : α → Int) :
    (l : List α) → sortedDescBy key (sortDescBy key l) = true
  | [] => rfl
  | x :: xs => sortedDescBy_insertDescBy key x _ (sortedDescBy_sortDescBy key xs)

theorem toTriggerRecord_base_id (e : RawEntity) :
    (toTriggerRecord e).base.id = rawHealthId e := by
  cases hf : e.fields with
  | none => simp [toTriggerRecord, formatEntity, hf, emptyRawFields, rawHealthId]
  | some f =>
      cases hh : f.health <;>
        simp [toTriggerRecord, formatEntity, hf, hh, rawHealthId]

/-- C10: the polling trigger returns exactly the fetched entities whose
nested health object has a (truthy) id; each returned record's `id` is the
health id while the entity's own id moves to `entityId`; and the result is
sorted by the health `lastUpdatedAt` key descending (the `Date` parse is
abstracted as an arbitrary total integer valuation, under which the JS
comparator is a consistent total preorder). -/
theorem C10_health_trigger :
    ∀ (dateVal : Option String → Int) (entities : List RawEntity),
      sortedDescBy (healthDateKey dateVal) (healthUpdatesPerform dateVal entities) = true ∧
      (∀ r ∈ healthUpdatesPerform dateVal entities,
        ∃ e ∈ entities, hasHealthId e = true ∧
          r.base.id = rawHealthId e ∧ r.entityId = e.id) ∧
      (∀ e ∈ entities, hasHealthId e = true →
        toTriggerRecord e ∈ healthUpdatesPerform dateVal entities) := by
  intro dv ents
  refine ⟨sortedDescBy_sortDescBy _ _, ?_, ?_⟩
  · intro r hr
    rw [healthUpdatesPerform, mem_sortDescBy] at hr
    obtain ⟨e, he, rfl⟩ := List.mem_map.mp hr
    have hfe := List.mem_filter.mp he
    exact ⟨e, hfe.1, hfe.2, toTriggerRecord_base_id e, rfl⟩
  · intro e he hh
    rw [healthUpdatesPerform, mem_sortDescBy]
    exact List.mem_map.mpr ⟨e, List.mem_filter.mpr ⟨he, hh⟩, rfl⟩

/-- C10 (witness): the trigger at a one-element entity list containing the
sample entity (whose health id is `health_abc123`). -/
theorem C10_witness :
    toTriggerRecord sampleHealthEntity ∈
      healthUpdatesPerform (fun _ => 0) [sampleHealthEntity] :=
  (C10_health_trigger (fun _ => 0) [sampleHealthEntity]).2.2 sampleHealthEntity
    (by simp) (by decide)

end Productboard
